import Mathlib

/-!
# Verification of the PDF extraction pipeline (`src/pdf_extractor.py`)

This file gives a shallow embedding of the pure logic of `pdf_extractor.py`:
the paragraph-aware greedy chunker `_chunk_text`, the Google-Drive URL
rewriting (`_extract_google_drive_id` / `_get_google_drive_download_url` /
`_download_file`), the backend selection (`_get_best_pdf_library` /
`extract_text`), the per-page text formatting of the three extraction
backends, the document-id computation (`_generate_doc_id`, i.e. the first 16
hex characters of an MD5 digest), the catalog update (`_update_metadata`),
and the control flow of `process_pdf`.  External effects (the filesystem,
the network, the installed libraries, the clock) are supplied by an explicit
environment record; file writes are collected in a list.
-/

namespace PdfExtractor

/-- Python `str.strip()` whitespace set (ASCII part; the inputs we model are
produced from these characters only). -/
def isPySpace (c : Char) : Bool :=
  c = ' ' || c = '\t' || c = '\n' || c = '\r' || c = '\x0b' || c = '\x0c'

/-- Leading-whitespace removal (`str.lstrip()`). -/
def trimLead (l : List Char) : List Char := l.dropWhile isPySpace

/-- Trailing-whitespace removal (`str.rstrip()`). -/
def trimTrail (l : List Char) : List Char := (l.reverse.dropWhile isPySpace).reverse

/-- Python `str.strip()` on a list of characters. -/
def stripL (l : List Char) : List Char := trimTrail (trimLead l)

/-- Python `text.split("\n\n")`: split on every non-overlapping occurrence of
the two-character separator, scanning left to right, keeping empty pieces
(`"".split("\n\n") == [""]`, `"a\n\n\n\nb".split("\n\n") == ["a","","b"]`). -/
def splitParas : List Char → List (List Char)
  | [] => [[]]
  | [c] => [[c]]
  | c₁ :: c₂ :: rest =>
    if c₁ = '\n' then
      if c₂ = '\n' then
        [] :: splitParas rest
      else
        match splitParas (c₂ :: rest) with
        | [] => [[c₁]]
        | p :: ps => (c₁ :: p) :: ps
    else
      match splitParas (c₂ :: rest) with
      | [] => [[c₁]]
      | p :: ps => (c₁ :: p) :: ps

/-- `"\n\n".join`, the inverse of `splitParas` on its image. -/
def joinSep : List (List Char) → List Char
  | [] => []
  | [x] => x
  | x :: y :: ys => x ++ '\n' :: '\n' :: joinSep (y :: ys)

/-- One iteration of the paragraph loop of `_chunk_text` (lines 222-228):
state is `(chunks, current_chunk)`.
```
if len(current_chunk) + len(para) + 2 > chunk_size:
    if current_chunk:
        chunks.append(current_chunk.strip())
    current_chunk = para
else:
    current_chunk += "\n\n" + para if current_chunk else para
``` -/
def chunkStep (chunk_size : Nat) (st : List (List Char) × List Char)
    (para : List Char) : List (List Char) × List Char :=
  if st.2.length + para.length + 2 > chunk_size then
    (if st.2 = [] then st.1 else st.1 ++ [stripL st.2], para)
  else
    (st.1, if st.2 = [] then para else st.2 ++ '\n' :: '\n' :: para)

/-- The final flush of `_chunk_text` (lines 230-231):
`if current_chunk: chunks.append(current_chunk.strip())`. -/
def flushChunks (st : List (List Char) × List Char) : List (List Char) :=
  if st.2 = [] then st.1 else st.1 ++ [stripL st.2]

/-- `_chunk_text(text, chunk_size)` (lines 215-233): split into paragraphs on
`"\n\n"`, fold the greedy accumulation step, flush the last chunk. -/
def chunkText (text : List Char) (chunk_size : Nat) : List (List Char) :=
  flushChunks ((splitParas text).foldl (chunkStep chunk_size) ([], []))

/-- `_chunk_text` on strings, chunk size defaulting to 50000 in the source. -/
def chunkTextS (text : String) (chunk_size : Nat) : List String :=
  (chunkText text.data chunk_size).map (fun l => String.mk l)

/-! ### Google-Drive URL rewriting (`_extract_google_drive_id` and friends) -/

/-- Characters matched by the regex character class `[a-zA-Z0-9_-]`. -/
def isDriveIdChar (c : Char) : Bool :=
  ('a' ≤ c && c ≤ 'z') || ('A' ≤ c && c ≤ 'Z') || ('0' ≤ c && c ≤ '9') ||
    c = '_' || c = '-'

/-- `re.search` for a pattern of the form `lit([a-zA-Z0-9_-]+)`: scan left to
right for the first position where the literal `lit` occurs followed by at
least one identifier character, and capture the greedy maximal identifier
run after the literal. -/
def searchLitId (lit : List Char) : List Char → Option (List Char)
  | [] => none
  | c :: rest =>
    let run := ((c :: rest).drop lit.length).takeWhile isDriveIdChar
    if lit.isPrefixOf (c :: rest) && !run.isEmpty then some run
    else searchLitId lit rest

/-- `_extract_google_drive_id` (lines 88-99): the ordered patterns
`/file/d/([a-zA-Z0-9_-]+)`, `id=([a-zA-Z0-9_-]+)`, `/open\?id=([a-zA-Z0-9_-]+)`
are tried in order; the first pattern that matches supplies the captured id. -/
def extractGoogleDriveId (url : String) : Option (List Char) :=
  match searchLitId "/file/d/".data url.data with
  | some i => some i
  | none =>
    match searchLitId "id=".data url.data with
    | some i => some i
    | none => searchLitId "/open?id=".data url.data

/-- `_get_google_drive_download_url` (lines 101-103). -/
def getGoogleDriveDownloadUrl (fileId : String) : String :=
  "https://drive.google.com/uc?export=download&id=" ++ fileId

/-- The URL `_download_file` (lines 105-112) actually downloads from: if a
drive file id is extracted the rewritten direct-download URL, otherwise the
given URL unchanged. -/
def resolveDownloadUrl (url : String) : String :=
  match extractGoogleDriveId url with
  | some i => getGoogleDriveDownloadUrl (String.mk i)
  | none => url

/-! ### MD5 and `_generate_doc_id`

`_generate_doc_id` is `hashlib.md5(source.encode()).hexdigest()[:16]`.  The
MD5 digest (RFC 1321) is embedded over `Nat` with explicit `% 2^32`
arithmetic; `source.encode()` is UTF-8 encoding. -/

/-- UTF-8 encoding of one code point (`str.encode()` is UTF-8). -/
def utf8EncodeChar (c : Char) : List Nat :=
  let n := c.toNat
  if n < 128 then [n]
  else if n < 2048 then [192 + n / 64, 128 + n % 64]
  else if n < 65536 then [224 + n / 4096, 128 + n / 64 % 64, 128 + n % 64]
  else [240 + n / 262144, 128 + n / 4096 % 64, 128 + n / 64 % 64, 128 + n % 64]

/-- UTF-8 bytes of a string. -/
def utf8Bytes (s : String) : List Nat := (s.data.map utf8EncodeChar).flatten

/-- Addition modulo `2^32`. -/
def add32 (a b : Nat) : Nat := (a + b) % 4294967296

/-- Bitwise complement on 32-bit words. -/
def not32 (a : Nat) : Nat := Nat.xor a 4294967295

/-- Left rotation of a 32-bit word. -/
def rotl32 (x s : Nat) : Nat :=
  Nat.lor ((x * 2 ^ s) % 4294967296) (x / 2 ^ (32 - s))

/-- MD5 round function F. -/
def md5F (b c d : Nat) : Nat := Nat.lor (Nat.land b c) (Nat.land (not32 b) d)

/-- MD5 round function G. -/
def md5G (b c d : Nat) : Nat := Nat.lor (Nat.land b d) (Nat.land c (not32 d))

/-- MD5 round function H. -/
def md5H (b c d : Nat) : Nat := Nat.xor b (Nat.xor c d)

/-- MD5 round function I. -/
def md5I (b c d : Nat) : Nat := Nat.xor c (Nat.lor b (not32 d))

/-- MD5 sine-derived constant table `K[0..63]`. -/
def md5K : List Nat :=
  [0xd76aa478, 0xe8c7b756, 0x242070db, 0xc1bdceee,
   0xf57c0faf, 0x4787c62a, 0xa8304613, 0xfd469501,
   0x698098d8, 0x8b44f7af, 0xffff5bb1, 0x895cd7be,
   0x6b901122, 0xfd987193, 0xa679438e, 0x49b40821,
   0xf61e2562, 0xc040b340, 0x265e5a51, 0xe9b6c7aa,
   0xd62f105d, 0x02441453, 0xd8a1e681, 0xe7d3fbc8,
   0x21e1cde6, 0xc33707d6, 0xf4d50d87, 0x455a14ed,
   0xa9e3e905, 0xfcefa3f8, 0x676f02d9, 0x8d2a4c8a,
   0xfffa3942, 0x8771f681, 0x6d9d6122, 0xfde5380c,
   0xa4beea44, 0x4bdecfa9, 0xf6bb4b60, 0xbebfbc70,
   0x289b7ec6, 0xeaa127fa, 0xd4ef3085, 0x04881d05,
   0xd9d4d039, 0xe6db99e5, 0x1fa27cf8, 0xc4ac5665,
   0xf4292244, 0x432aff97, 0xab9423a7, 0xfc93a039,
   0x655b59c3, 0x8f0ccc92, 0xffeff47d, 0x85845dd1,
   0x6fa87e4f, 0xfe2ce6e0, 0xa3014314, 0x4e0811a1,
   0xf7537e82, 0xbd3af235, 0x2ad7d2bb, 0xeb86d391]

/-- MD5 per-round left-rotation amounts `s[0..63]`. -/
def md5S : List Nat :=
  [7, 12, 17, 22, 7, 12, 17, 22, 7, 12, 17, 22, 7, 12, 17, 22,
   5, 9, 14, 20, 5, 9, 14, 20, 5, 9, 14, 20, 5, 9, 14, 20,
   4, 11, 16, 23, 4, 11, 16, 23, 4, 11, 16, 23, 4, 11, 16, 23,
   6, 10, 15, 21, 6, 10, 15, 21, 6, 10, 15, 21, 6, 10, 15, 21]

/-- MD5 message padding: append `0x80`, zero-pad to 56 mod 64, then the
original bit length as 8 little-endian bytes. -/
def md5Pad (msg : List Nat) : List Nat :=
  let len := msg.length
  let z := (119 - len % 64) % 64
  let bits := (len * 8) % 18446744073709551616
  msg ++ [128] ++ List.replicate z 0 ++
    [bits % 256, bits / 256 % 256, bits / 65536 % 256, bits / 16777216 % 256,
     bits / 4294967296 % 256, bits / 1099511627776 % 256,
     bits / 281474976710656 % 256, bits / 72057594037927936 % 256]

/-- Split a byte list into 64-byte blocks (fuel-based so that the kernel can
evaluate it; the fuel `msg.length` is always sufficient). -/
def toBlocksAux : Nat → List Nat → List (List Nat)
  | 0, _ => []
  | _ + 1, [] => []
  | fuel + 1, l => l.take 64 :: toBlocksAux fuel (l.drop 64)

/-- The 64-byte blocks of a padded message. -/
def md5Blocks (msg : List Nat) : List (List Nat) := toBlocksAux msg.length msg

/-- Little-endian 32-bit word `j` of a 64-byte block. -/
def blockWord (block : List Nat) (j : Nat) : Nat :=
  block.getD (4 * j) 0 + 256 * block.getD (4 * j + 1) 0 +
    65536 * block.getD (4 * j + 2) 0 + 16777216 * block.getD (4 * j + 3) 0

/-- One of the 64 MD5 operations. -/
def md5Step (m : List Nat) (st : Nat × Nat × Nat × Nat) (i : Nat) :
    Nat × Nat × Nat × Nat :=
  let a := st.1
  let b := st.2.1
  let c := st.2.2.1
  let d := st.2.2.2
  let fg : Nat × Nat :=
    if i < 16 then (md5F b c d, i)
    else if i < 32 then (md5G b c d, (5 * i + 1) % 16)
    else if i < 48 then (md5H b c d, (3 * i + 5) % 16)
    else (md5I b c d, (7 * i) % 16)
  let f := add32 (add32 (add32 fg.1 a) (md5K.getD i 0)) (blockWord m fg.2)
  (d, add32 b (rotl32 f (md5S.getD i 0)), b, c)

/-- Process one 64-byte block of the MD5 compression function. -/
def md5Block (st : Nat × Nat × Nat × Nat) (block : List Nat) :
    Nat × Nat × Nat × Nat :=
  let r := (List.range 64).foldl (md5Step block) st
  (add32 st.1 r.1, add32 st.2.1 r.2.1, add32 st.2.2.1 r.2.2.1,
    add32 st.2.2.2 r.2.2.2)

/-- The MD5 digest state of a byte message. -/
def md5Digest (msg : List Nat) : Nat × Nat × Nat × Nat :=
  (md5Blocks (md5Pad msg)).foldl md5Block
    (0x67452301, 0xefcdab89, 0x98badcfe, 0x10325476)

/-- Lowercase hex digit. -/
def hexDigit (n : Nat) : Char :=
  if n < 10 then Char.ofNat (48 + n) else Char.ofNat (87 + n)

/-- Two lowercase hex characters of one byte. -/
def byteHex (b : Nat) : List Char := [hexDigit (b / 16), hexDigit (b % 16)]

/-- The four little-endian bytes of a 32-bit word. -/
def wordLEBytes (w : Nat) : List Nat :=
  [w % 256, w / 256 % 256, w / 65536 % 256, w / 16777216 % 256]

/-- The 16 digest bytes of an MD5 state. -/
def stateBytes (st : Nat × Nat × Nat × Nat) : List Nat :=
  wordLEBytes st.1 ++ wordLEBytes st.2.1 ++ wordLEBytes st.2.2.1 ++
    wordLEBytes st.2.2.2

/-- Lowercase hex characters of a byte list. -/
def bytesToHex (bs : List Nat) : List Char := (bs.map byteHex).flatten

/-- `hashlib.md5(msg).hexdigest()`. -/
def md5HexChars (msg : List Nat) : List Char := bytesToHex (stateBytes (md5Digest msg))

/-- `_generate_doc_id` (lines 84-86):
`hashlib.md5(source.encode()).hexdigest()[:16]`. -/
def generateDocId (source : String) : String :=
  String.mk ((md5HexChars (utf8Bytes source)).take 16)

/-! ### Text-extraction backends

Each backend is abstracted over the page texts the third-party library
reports for the opened document, in document order.  `pdfplumber` and
`PyPDF2` may report `None` for an unextractable page (the code maps it to
`""` via `or ""`); PyMuPDF's `get_text()` always returns a string. -/

/-- `_extract_text_pymupdf` (lines 157-169): page headers plus page text,
joined with `"\n\n"`; page count is the number of pages of the document. -/
def extractTextPymupdf (pages : List String) : String × Nat :=
  let text_parts := pages.enum.map
    (fun it => "--- Page " ++ toString (it.1 + 1) ++ " ---\n" ++ it.2)
  (String.intercalate "\n\n" text_parts, pages.length)

/-- `_extract_text_pdfplumber` (lines 171-181): as above, with
`page.extract_text() or ""` for pages that yield `None`. -/
def extractTextPdfplumber (pages : List (Option String)) : String × Nat :=
  let text_parts := pages.enum.map
    (fun it => "--- Page " ++ toString (it.1 + 1) ++ " ---\n" ++ it.2.getD "")
  (String.intercalate "\n\n" text_parts, pages.length)

/-- `_extract_text_pypdf2` (lines 183-195): as above, with
`page.extract_text() or ""`. -/
def extractTextPypdf2 (pages : List (Option String)) : String × Nat :=
  let text_parts := pages.enum.map
    (fun it => "--- Page " ++ toString (it.1 + 1) ++ " ---\n" ++ it.2.getD "")
  (String.intercalate "\n\n" text_parts, pages.length)

/-- The page-block format stated by the spec: blocks `"--- Page i ---\n"`
followed by the page text, for `i = 1..n` in order.  (Spec-side definition,
to be compared with the three backend embeddings above.) -/
def specPageBlocks : Nat → List String → List String
  | _, [] => []
  | i, t :: ts => ("--- Page " ++ toString i ++ " ---\n" ++ t) :: specPageBlocks (i + 1) ts

/-! ### The environment: everything external the pipeline consults -/

/-- External state of one run: which libraries are importable, the
filesystem/network behaviour, the page texts each backend would report for
the fetched document, the measured file size and the two clock readings. -/
structure Env where
  hasPymupdf : Bool
  hasPdfplumber : Bool
  hasPypdf2 : Bool
  fileExists : String → Bool
  downloadOk : Bool
  downloadPartialWrite : Bool
  pagesPymupdf : List String
  pagesPdfplumber : List (Option String)
  pagesPypdf2 : List (Option String)
  fileSizeMb : Nat
  nowResult : String
  nowCatalog : String

/-- `_get_best_pdf_library` (lines 73-82): fixed priority order
pymupdf, pdfplumber, pypdf2, else `"none"`. -/
def getBestPdfLibrary (e : Env) : String :=
  if e.hasPymupdf then "pymupdf"
  else if e.hasPdfplumber then "pdfplumber"
  else if e.hasPypdf2 then "pypdf2"
  else "none"

/-- The `RuntimeError` message of `extract_text` (lines 208-213) when no
backend is available. -/
def noLibraryMsg : String :=
  "No PDF library available. Install one of: PyMuPDF (pip install pymupdf), pdfplumber (pip install pdfplumber), or PyPDF2 (pip install pypdf2)"

/-- `extract_text` (lines 197-213): dispatch on the selected backend;
raise (modelled as `.error`) when none is available. -/
def extractText (e : Env) : Except String (String × Nat) :=
  if getBestPdfLibrary e = "pymupdf" then .ok (extractTextPymupdf e.pagesPymupdf)
  else if getBestPdfLibrary e = "pdfplumber" then .ok (extractTextPdfplumber e.pagesPdfplumber)
  else if getBestPdfLibrary e = "pypdf2" then .ok (extractTextPypdf2 e.pagesPypdf2)
  else .error noLibraryMsg

/-! ### The catalog (`extraction_metadata.json`) and `_update_metadata` -/

/-- The `github_paths` sub-dictionary of a result. -/
structure GithubPaths where
  pdf : String
  full_text : String
  chunks : String
deriving DecidableEq, Repr

/-- A catalog entry: the sub-dictionary stored at
`metadata["documents"][doc_id]` (lines 370-382). -/
structure DocEntry where
  doc_id : String
  source_url : Option String
  local_source : Option String
  title : String
  tags : List String
  page_count : Nat
  character_count : Nat
  chunk_count : Nat
  file_size_mb : Nat
  extraction_date : String
  github_paths : GithubPaths
deriving DecidableEq, Repr

/-- The result dictionary built by `process_pdf` on success (lines 322-346). -/
structure ExtractionResult where
  doc_id : String
  source_url : Option String
  local_source : Option String
  title : String
  tags : List String
  page_count : Nat
  character_count : Nat
  chunk_count : Nat
  file_size_mb : Nat
  extraction_date : String
  pdf_library_used : String
  files_pdf : String
  files_full_text : String
  files_chunks_dir : String
  files_chunk_files : List String
  github_paths : GithubPaths
deriving DecidableEq, Repr

/-- The entry `_update_metadata` stores for a result (lines 370-382): every
field is taken from the given result (no merge with any prior entry). -/
def entryOfResult (r : ExtractionResult) : DocEntry :=
  { doc_id := r.doc_id
    source_url := r.source_url
    local_source := r.local_source
    title := r.title
    tags := r.tags
    page_count := r.page_count
    character_count := r.character_count
    chunk_count := r.chunk_count
    file_size_mb := r.file_size_mb
    extraction_date := r.extraction_date
    github_paths := r.github_paths }

/-- The catalog JSON object.  `documents` is the insertion-ordered key/value
list of a Python dict (keys unique); `extra` holds any other top-level keys
of the loaded JSON object, which `json.load`/`json.dump` carry through
unchanged (values kept as raw text). -/
structure Metadata where
  last_updated : Option String
  document_count : Nat
  documents : List (String × DocEntry)
  extra : List (String × String)
deriving DecidableEq, Repr

/-- The initial catalog when `extraction_metadata.json` does not exist
(lines 361-366). -/
def emptyMetadata : Metadata :=
  { last_updated := none, document_count := 0, documents := [], extra := [] }

/-- Python dict lookup `metadata["documents"].get(key)`. -/
def lookupDoc : List (String × DocEntry) → String → Option DocEntry
  | [], _ => none
  | (k, v) :: rest, key => if k = key then some v else lookupDoc rest key

/-- Python dict assignment `d[key] = v`: replace in place if the key is
present, else append (insertion order). -/
def insertOrReplace (docs : List (String × DocEntry)) (key : String) (v : DocEntry) :
    List (String × DocEntry) :=
  if docs.any (fun q => decide (q.1 = key)) then
    docs.map (fun q => if q.1 = key then (key, v) else q)
  else docs ++ [(key, v)]

/-- `_update_metadata` (lines 356-390) acting on a loaded catalog: store the
entry at the result's `doc_id`, recompute `document_count` as the dict's
size, stamp `last_updated`; everything else is written back unchanged. -/
def updateMetadata (md : Metadata) (r : ExtractionResult) (now : String) : Metadata :=
  let docs := insertOrReplace md.documents r.doc_id (entryOfResult r)
  { last_updated := some now
    document_count := docs.length
    documents := docs
    extra := md.extra }

/-! ### `process_pdf` -/

/-- The dictionary `process_pdf` returns: either
`{"success": False, "error": msg}` or the full success dictionary. -/
inductive ProcResult where
  | failure (error : String)
  | done (r : ExtractionResult)
deriving DecidableEq, Repr

/-- The `success` flag of the returned dictionary. -/
def ProcResult.successFlag : ProcResult → Bool
  | .failure _ => false
  | .done _ => true

/-- The `doc_id` field of the returned dictionary, when present. -/
def ProcResult.docId? : ProcResult → Option String
  | .failure _ => none
  | .done r => some r.doc_id

/-- `re.sub(r'[^\w\-]', '_', output_name)` (line 262), ASCII part of `\w`. -/
def sanitizeChar (c : Char) : Char :=
  if ('a' ≤ c && c ≤ 'z') || ('A' ≤ c && c ≤ 'Z') || ('0' ≤ c && c ≤ '9') ||
      c = '_' || c = '-' then c
  else '_'

/-- Sanitized output name. -/
def sanitizeName (s : String) : String := String.mk (s.data.map sanitizeChar)

/-- `source.startswith(('http://', 'https://'))` (line 267). -/
def isUrl (s : String) : Bool :=
  "http://".data.isPrefixOf s.data || "https://".data.isPrefixOf s.data

/-- Python `a or b` on an optional string (`title or safe_name`, line 327):
`None` and `""` both fall back. -/
def pyOrStr (o : Option String) (dflt : String) : String :=
  match o with
  | some t => if t = "" then dflt else t
  | none => dflt

/-- `f"{i:03d}"` for the chunk file names (line 308). -/
def pad3 (n : Nat) : String :=
  if n < 10 then "00" ++ toString n
  else if n < 100 then "0" ++ toString n
  else toString n

/-- `process_pdf` (lines 235-354).  Returns the result dictionary, the file
paths written during the run (in write order; a failed download may leave a
partially written PDF, per `Env.downloadPartialWrite`), and the catalog
state after the run, starting from the loaded catalog `md`. -/
def processPdf (e : Env) (md : Metadata) (source : String)
    (output_name : Option String) (title : Option String)
    (tags : Option (List String)) : ProcResult × List String × Metadata :=
  let doc_id := generateDocId source
  let safe_name :=
    match output_name with
    | some nm => sanitizeName nm
    | none => doc_id
  let is_url := isUrl source
  let pdf_path := "extracted_pdfs/pdfs/" ++ safe_name ++ ".pdf"
  let text_path := "extracted_pdfs/text/" ++ safe_name ++ ".txt"
  let chunks_dir := "extracted_pdfs/chunks/" ++ safe_name
  let afterFetch : ProcResult × List String × Metadata :=
    match extractText e with
    | .error err => (.failure ("Text extraction failed: " ++ err), [pdf_path], md)
    | .ok te =>
      let extracted_text := te.1
      let page_count := te.2
      let chunks := chunkTextS extracted_text 50000
      let chunk_files := (List.range chunks.length).map
        (fun i => chunks_dir ++ "/chunk_" ++ pad3 (i + 1) ++ ".txt")
      let result : ExtractionResult :=
        { doc_id := doc_id
          source_url := if is_url then some source else none
          local_source := if is_url then none else some source
          title := pyOrStr title safe_name
          tags := tags.getD []
          page_count := page_count
          character_count := extracted_text.length
          chunk_count := chunks.length
          file_size_mb := e.fileSizeMb
          extraction_date := e.nowResult
          pdf_library_used := getBestPdfLibrary e
          files_pdf := pdf_path
          files_full_text := text_path
          files_chunks_dir := chunks_dir
          files_chunk_files := chunk_files
          github_paths :=
            { pdf := "extracted_pdfs/pdfs/" ++ safe_name ++ ".pdf"
              full_text := "extracted_pdfs/text/" ++ safe_name ++ ".txt"
              chunks := "extracted_pdfs/chunks/" ++ safe_name ++ "/" } }
      (.done result,
        pdf_path :: text_path :: chunk_files ++ ["extraction_metadata.json"],
        updateMetadata md result e.nowCatalog)
  if is_url then
    if e.downloadOk then afterFetch
    else (.failure "Download failed",
      if e.downloadPartialWrite then [pdf_path] else [], md)
  else
    if e.fileExists source then afterFetch
    else (.failure ("File not found: " ++ source), [], md)

/-! ### Concrete sample records for instantiations -/

/-- A concrete result record with the given identifier and title. -/
def sampleResult (id ttl : String) : ExtractionResult :=
  { doc_id := id
    source_url := none
    local_source := some "doc.pdf"
    title := ttl
    tags := []
    page_count := 1
    character_count := 2
    chunk_count := 1
    file_size_mb := 1
    extraction_date := "2024-01-01T00:00:00"
    pdf_library_used := "pymupdf"
    files_pdf := "p"
    files_full_text := "t"
    files_chunks_dir := "c"
    files_chunk_files := []
    github_paths := { pdf := "p", full_text := "t", chunks := "c/" } }

/-- A concrete environment with no backend installed and every local path
present. -/
def sampleEnvNoLib : Env :=
  { hasPymupdf := false
    hasPdfplumber := false
    hasPypdf2 := false
    fileExists := fun _ => true
    downloadOk := true
    downloadPartialWrite := false
    pagesPymupdf := []
    pagesPdfplumber := []
    pagesPypdf2 := []
    fileSizeMb := 1
    nowResult := "2024-01-01T00:00:00"
    nowCatalog := "2024-01-01T00:00:01" }

/-- A concrete environment whose filesystem has no files. -/
def sampleEnvMissing : Env :=
  { sampleEnvNoLib with hasPymupdf := true, fileExists := fun _ => false }

/-! ### Properties of `stripL` -/

lemma trimLead_length_le (l : List Char) : (trimLead l).length ≤ l.length :=
  (List.dropWhile_suffix _).length_le

lemma trimTrail_length_le (l : List Char) : (trimTrail l).length ≤ l.length := by
  have := (List.dropWhile_suffix (l := l.reverse) isPySpace).length_le
  simpa [trimTrail] using this

lemma stripL_length_le (l : List Char) : (stripL l).length ≤ l.length :=
  le_trans (trimTrail_length_le _) (trimLead_length_le _)

lemma trimLead_eq_self_of_head {c : Char} {t : List Char} (h : isPySpace c = false) :
    trimLead (c :: t) = c :: t := by
  simp [trimLead, List.dropWhile_cons, h]

lemma trimTrail_eq_self_of_getLast {l : List Char} {c : Char}
    (hc : l.getLast? = some c) (h : isPySpace c = false) : trimTrail l = l := by
  have hrev : l.reverse.head? = some c := by rw [List.head?_reverse, hc]
  rcases hr : l.reverse with _ | ⟨d, r⟩
  · rw [hr] at hrev; simp at hrev
  · rw [hr] at hrev
    simp only [List.head?_cons, Option.some.injEq] at hrev
    subst hrev
    rw [trimTrail, hr, List.dropWhile_cons_of_neg (by simp [h]), ← hr, List.reverse_reverse]

lemma trimLead_head {l : List Char} {c : Char} (h : (trimLead l).head? = some c) :
    isPySpace c = false := by
  have := List.head?_dropWhile_not isPySpace l
  rw [show l.dropWhile isPySpace = trimLead l from rfl, h] at this
  exact this

lemma trimLead_trimLead (l : List Char) : trimLead (trimLead l) = trimLead l := by
  rcases h : trimLead l with _ | ⟨c, t⟩
  · rfl
  · exact trimLead_eq_self_of_head (trimLead_head (by rw [h]; rfl))

lemma trimTrail_trimTrail (l : List Char) : trimTrail (trimTrail l) = trimTrail l := by
  simp [trimTrail, List.reverse_reverse, trimLead_trimLead,
    show ∀ m : List Char, m.dropWhile isPySpace = trimLead m from fun _ => rfl]

/-- `trimTrail l` is a prefix of `l`. -/
lemma trimTrail_prefix_self (l : List Char) : trimTrail l <+: l := by
  have h := Iff.mpr List.reverse_prefix (List.dropWhile_suffix (l := l.reverse) isPySpace)
  rw [List.reverse_reverse] at h
  exact h

lemma head?_of_prefix_ne_nil {l m : List Char} (h : l <+: m) (hne : l ≠ []) :
    m.head? = l.head? := by
  obtain ⟨t, rfl⟩ := h
  rcases l with _ | ⟨c, r⟩
  · exact absurd rfl hne
  · rfl

lemma head_not_space_of_trimLead_eq_self {m : List Char} {c : Char}
    (hm : trimLead m = m) (hc : m.head? = some c) : isPySpace c = false := by
  rcases m with _ | ⟨d, t⟩
  · simp at hc
  · simp only [List.head?_cons, Option.some.injEq] at hc
    subst hc
    by_contra hsp
    rw [Bool.not_eq_false] at hsp
    have h1 : trimLead (d :: t) = trimLead t := by
      simp [trimLead, List.dropWhile_cons, hsp]
    rw [hm] at h1
    have h2 := trimLead_length_le t
    rw [← h1] at h2
    simp at h2

lemma trimLead_of_prefix_self {m q : List Char} (hm : trimLead m = m) (hq : q <+: m) :
    trimLead q = q := by
  rcases q with _ | ⟨c, t⟩
  · rfl
  · have hh : m.head? = some c := by
      rw [head?_of_prefix_ne_nil hq (List.cons_ne_nil _ _)]; rfl
    exact trimLead_eq_self_of_head (head_not_space_of_trimLead_eq_self hm hh)

lemma stripL_idem (l : List Char) : stripL (stripL l) = stripL l := by
  show trimTrail (trimLead (trimTrail (trimLead l))) = trimTrail (trimLead l)
  rw [trimLead_of_prefix_self (trimLead_trimLead l) (trimTrail_prefix_self _), trimTrail_trimTrail]

lemma getLast_not_space_of_stripL_eq_self {m : List Char} {c : Char}
    (hm : stripL m = m) (hc : m.getLast? = some c) : isPySpace c = false := by
  have hrev : m.reverse.head? = some c := by rw [List.head?_reverse, hc]
  have hrt : trimLead m.reverse = m.reverse := by
    have h1 : (stripL m).reverse = m.reverse := by rw [hm]
    have h2 : stripL m = ((trimLead m).reverse.dropWhile isPySpace).reverse := rfl
    rw [h2, List.reverse_reverse] at h1
    have h3 : trimLead ((trimLead m).reverse) = m.reverse := h1
    have hlen : m.reverse.length ≤ (trimLead m).reverse.length := by
      rw [← h3]; exact trimLead_length_le _
    simp only [List.length_reverse] at hlen
    have : trimLead m = m := ((List.dropWhile_suffix _).eq_of_length
      (le_antisymm (trimLead_length_le _) hlen))
    rw [this] at h3
    exact h3
  exact head_not_space_of_trimLead_eq_self hrt hrev

lemma head_not_space_of_stripL_eq_self {m : List Char} {c : Char}
    (hm : stripL m = m) (hc : m.head? = some c) : isPySpace c = false := by
  have hlead : trimLead m = m := by
    have h1 : (trimLead (trimLead m)).length ≤ (trimLead m).length := trimLead_length_le _
    have h2 : (stripL m).length ≤ (trimLead m).length := trimTrail_length_le _
    rw [hm] at h2
    exact (List.dropWhile_suffix _).eq_of_length
      (le_antisymm (trimLead_length_le _) h2)
  exact head_not_space_of_trimLead_eq_self hlead hc

/-- A concatenation whose first block starts and last block ends with
non-whitespace is already stripped. -/
lemma stripL_eq_self_of_ends {l : List Char} {c d : Char}
    (hh : l.head? = some c) (hc : isPySpace c = false)
    (hl : l.getLast? = some d) (hd : isPySpace d = false) : stripL l = l := by
  rcases l with _ | ⟨e, t⟩
  · simp at hh
  · simp only [List.head?_cons, Option.some.injEq] at hh
    subst hh
    rw [stripL, trimLead_eq_self_of_head hc, trimTrail_eq_self_of_getLast hl hd]

/-! ### Properties of `joinSep` and `splitParas` -/

lemma joinSep_cons {x : List Char} {xs : List (List Char)} (h : xs ≠ []) :
    joinSep (x :: xs) = x ++ '\n' :: '\n' :: joinSep xs := by
  rcases xs with _ | ⟨y, ys⟩
  · exact absurd rfl h
  · rfl

lemma joinSep_append {A B : List (List Char)} (hA : A ≠ []) (hB : B ≠ []) :
    joinSep (A ++ B) = joinSep A ++ '\n' :: '\n' :: joinSep B := by
  induction A with
  | nil => exact absurd rfl hA
  | cons a A ih =>
    rcases A with _ | ⟨a', A'⟩
    · rw [List.singleton_append, joinSep_cons hB]
      rfl
    · rw [List.cons_append, joinSep_cons (by simp), joinSep_cons (by simp),
        ih (by simp), List.append_assoc]
      rfl

lemma joinSep_append_single (S : List (List Char)) (p : List Char) :
    joinSep (S ++ [p]) = if S = [] then p else joinSep S ++ '\n' :: '\n' :: p := by
  rcases hS : S with _ | ⟨x, xs⟩
  · rfl
  · rw [if_neg (by simp), joinSep_append (by simp) (by simp)]
    rfl

lemma joinSep_append_single_append (xs : List (List Char)) (y z : List Char) :
    joinSep (xs ++ [y ++ z]) = joinSep (xs ++ [y]) ++ z := by
  rcases eq_or_ne xs [] with rfl | hxs
  · rfl
  · rw [joinSep_append_single _ _, if_neg hxs, joinSep_append_single _ _, if_neg hxs]
    simp [List.append_assoc]

lemma length_joinSep_right_le (A B : List (List Char)) :
    (joinSep B).length ≤ (joinSep (A ++ B)).length := by
  rcases eq_or_ne A [] with rfl | hA
  · simp
  rcases eq_or_ne B [] with rfl | hB
  · simp [joinSep]
  rw [joinSep_append hA hB]
  simp only [List.length_append, List.length_cons]
  omega

lemma length_joinSep_left_le (A B : List (List Char)) :
    (joinSep A).length ≤ (joinSep (A ++ B)).length := by
  rcases eq_or_ne A [] with rfl | hA
  · simp [joinSep]
  rcases eq_or_ne B [] with rfl | hB
  · simp
  rw [joinSep_append hA hB]
  simp only [List.length_append, List.length_cons]
  omega

lemma mem_length_le_joinSep {p : List Char} {S : List (List Char)} (h : p ∈ S) :
    p.length ≤ (joinSep S).length := by
  obtain ⟨A, B, rfl⟩ := List.append_of_mem h
  calc p.length ≤ (joinSep (p :: B)).length := by
        rcases B with _ | ⟨b, bs⟩
        · simp [joinSep]
        · rw [joinSep_cons (by simp)]; simp
    _ ≤ (joinSep (A ++ p :: B)).length := length_joinSep_right_le _ _

lemma splitParas_ne_nil (l : List Char) : splitParas l ≠ [] := by
  induction l using splitParas.induct with
  | case1 => simp [splitParas]
  | case2 c => simp [splitParas]
  | case3 rest ih => simp [splitParas]
  | case4 c₂ rest hne heq ih => exact absurd heq ih
  | case5 c₂ rest hne p ps heq ih =>
    rw [splitParas.eq_def]
    simp [hne, heq]
  | case6 c₁ c₂ rest hne heq ih => exact absurd heq ih
  | case7 c₁ c₂ rest hne p ps heq ih =>
    rw [splitParas.eq_def]
    rcases rest with _ | ⟨r, rs⟩ <;> simp [hne, heq]

lemma joinSep_cons_head (c : Char) (p : List Char) (ps : List (List Char)) :
    joinSep ((c :: p) :: ps) = c :: joinSep (p :: ps) := by
  rcases ps with _ | ⟨q, qs⟩
  · rfl
  · simp [joinSep, List.cons_append]

lemma splitParas_cons_of_ne {c₁ c₂ : Char} {rest : List Char} {p : List Char}
    {ps : List (List Char)} (h : ¬(c₁ = '\n' ∧ c₂ = '\n'))
    (heq : splitParas (c₂ :: rest) = p :: ps) :
    splitParas (c₁ :: c₂ :: rest) = (c₁ :: p) :: ps := by
  rw [splitParas.eq_def]
  by_cases h₁ : c₁ = '\n'
  · have h₂ : ¬c₂ = '\n' := fun hc => h ⟨h₁, hc⟩
    simp [h₁, h₂, heq]
  · simp [h₁, heq]

/-- `"\n\n".join(text.split("\n\n")) == text`. -/
lemma joinSep_splitParas (l : List Char) : joinSep (splitParas l) = l := by
  induction l using splitParas.induct with
  | case1 => rfl
  | case2 c => rfl
  | case3 rest ih =>
    have h : splitParas ('\n' :: '\n' :: rest) = [] :: splitParas rest := by
      rw [splitParas.eq_def]
      simp
    rw [h, joinSep_cons (splitParas_ne_nil rest), ih]
    rfl
  | case4 c₂ rest hne heq ih => exact absurd heq (splitParas_ne_nil _)
  | case5 c₂ rest hne p ps heq ih =>
    rw [splitParas_cons_of_ne (fun hc => hne hc.2) heq, joinSep_cons_head, ← heq, ih]
  | case6 c₁ c₂ rest hne heq ih => exact absurd heq (splitParas_ne_nil _)
  | case7 c₁ c₂ rest hne p ps heq ih =>
    rw [splitParas_cons_of_ne (fun hc => hne hc.1) heq, joinSep_cons_head, ← heq, ih]

/-! ### The greedy fold of `_chunk_text`: size bound -/

lemma stripped_chunk_good {n : Nat} {all : List (List Char)} {cur : List Char}
    (hcur : cur.length ≤ n ∨ cur ∈ all) :
    ((stripL cur).length ≤ n ∨ ∃ p ∈ all, stripL cur = stripL p ∧ n < p.length) ∧
      stripL (stripL cur) = stripL cur := by
  refine ⟨?_, stripL_idem cur⟩
  by_cases hlen : cur.length ≤ n
  · exact Or.inl (le_trans (stripL_length_le _) hlen)
  · rcases hcur with h | hmem
    · exact absurd h hlen
    · exact Or.inr ⟨cur, hmem, rfl, by omega⟩

lemma chunkStep_fold_bound (n : Nat) (all : List (List Char)) :
    ∀ paras : List (List Char), (∀ p ∈ paras, p ∈ all) →
    ∀ (chunks : List (List Char)) (cur : List Char),
      (∀ c ∈ chunks, (c.length ≤ n ∨ ∃ p ∈ all, c = stripL p ∧ n < p.length) ∧ stripL c = c) →
      (cur.length ≤ n ∨ cur ∈ all) →
      ∀ c ∈ flushChunks (paras.foldl (chunkStep n) (chunks, cur)),
        (c.length ≤ n ∨ ∃ p ∈ all, c = stripL p ∧ n < p.length) ∧ stripL c = c := by
  intro paras
  induction paras with
  | nil =>
    intro _ chunks cur hch hcur c hc
    simp only [List.foldl_nil, flushChunks] at hc
    by_cases hc0 : cur = []
    · rw [if_pos hc0] at hc
      exact hch c hc
    · rw [if_neg hc0] at hc
      rcases List.mem_append.mp hc with h | h
      · exact hch c h
      · rcases List.mem_singleton.mp h with rfl
        exact stripped_chunk_good hcur
  | cons p paras ih =>
    intro hsub chunks cur hch hcur
    rw [List.foldl_cons]
    have hsub' : ∀ q ∈ paras, q ∈ all := fun q hq => hsub q (List.mem_cons_of_mem _ hq)
    have hpall : p ∈ all := hsub p (List.mem_cons_self _ _)
    by_cases hcond : cur.length + p.length + 2 > n
    · by_cases hc0 : cur = []
      · have hstep : chunkStep n (chunks, cur) p = (chunks, p) := by
          simp [chunkStep, hcond, hc0]
        rw [hstep]
        exact ih hsub' chunks p hch (Or.inr hpall)
      · have hstep : chunkStep n (chunks, cur) p = (chunks ++ [stripL cur], p) := by
          simp [chunkStep, hcond, hc0]
        rw [hstep]
        refine ih hsub' _ p ?_ (Or.inr hpall)
        intro c hc
        rcases List.mem_append.mp hc with h | h
        · exact hch c h
        · rcases List.mem_singleton.mp h with rfl
          exact stripped_chunk_good hcur
    · by_cases hc0 : cur = []
      · have hstep : chunkStep n (chunks, cur) p = (chunks, p) := by
          simp [chunkStep, hcond, hc0]
        rw [hstep]
        refine ih hsub' chunks p hch (Or.inl ?_)
        subst hc0
        simp only [List.length_nil] at hcond
        omega
      · have hstep : chunkStep n (chunks, cur) p = (chunks, cur ++ '\n' :: '\n' :: p) := by
          simp [chunkStep, hcond, hc0]
        rw [hstep]
        refine ih hsub' chunks _ hch (Or.inl ?_)
        simp only [List.length_append, List.length_cons]
        omega

/-! ### The greedy fold of `_chunk_text`: lossless re-join for clean paragraphs -/

lemma chunkStep_fold_join (n : Nat) :
    ∀ paras : List (List Char), (∀ p ∈ paras, p ≠ [] ∧ stripL p = p) →
    ∀ (P chunks : List (List Char)) (cur : List Char),
      ((P = [] ∧ chunks = [] ∧ cur = []) ∨
        (P ≠ [] ∧ cur ≠ [] ∧ stripL cur = cur ∧
          joinSep (chunks ++ [cur]) = joinSep P)) →
      joinSep (flushChunks (paras.foldl (chunkStep n) (chunks, cur))) = joinSep (P ++ paras) := by
  intro paras
  induction paras with
  | nil =>
    intro _ P chunks cur hinv
    simp only [List.foldl_nil, List.append_nil, flushChunks]
    rcases hinv with ⟨hP, hch, hc0⟩ | ⟨hP, hc0, hstrip, hjoin⟩
    · subst hP; subst hch; subst hc0; rfl
    · rw [if_neg hc0, hstrip, hjoin]
  | cons p paras ih =>
    intro hp P chunks cur hinv
    have hpp : p ≠ [] ∧ stripL p = p := hp p (List.mem_cons_self _ _)
    have hp' : ∀ q ∈ paras, q ≠ [] ∧ stripL q = q := fun q hq => hp q (List.mem_cons_of_mem _ hq)
    rw [List.foldl_cons]
    have hApp : P ++ p :: paras = (P ++ [p]) ++ paras := by
      rw [List.append_assoc]; rfl
    rw [hApp]
    rcases hinv with ⟨hP, hch, hc0⟩ | ⟨hP, hc0, hstrip, hjoin⟩
    · -- nothing accumulated yet: both branches of the step give `([], p)`
      subst hP; subst hch; subst hc0
      have hstep : chunkStep n ([], ([] : List Char)) p = ([], p) := by
        by_cases hcond : (0 : Nat) + p.length + 2 > n <;>
          simp [chunkStep, hcond]
      rw [hstep]
      refine ih hp' [p] [] p (Or.inr ⟨by simp, hpp.1, hpp.2, ?_⟩)
      rfl
    · by_cases hcond : cur.length + p.length + 2 > n
      · have hstep : chunkStep n (chunks, cur) p = (chunks ++ [stripL cur], p) := by
          simp [chunkStep, hcond, hc0]
        rw [hstep]
        refine ih hp' (P ++ [p]) _ p (Or.inr ⟨by simp, hpp.1, hpp.2, ?_⟩)
        rw [hstrip, joinSep_append_single (chunks ++ [cur]) p, if_neg (by simp),
          joinSep_append_single P p, if_neg hP, hjoin]
      · have hstep : chunkStep n (chunks, cur) p = (chunks, cur ++ '\n' :: '\n' :: p) := by
          simp [chunkStep, hcond, hc0]
        rw [hstep]
        have hcur' : stripL (cur ++ '\n' :: '\n' :: p) = cur ++ '\n' :: '\n' :: p := by
          obtain ⟨c, hch⟩ : ∃ c, cur.head? = some c := by
            rcases cur with _ | ⟨c, t⟩
            · exact absurd rfl hc0
            · exact ⟨c, rfl⟩
          rcases List.eq_nil_or_concat p with hpz | ⟨q, d, hq⟩
          · exact absurd hpz hpp.1
          have hpl : p.getLast? = some d := by
            rw [hq, List.concat_eq_append, List.getLast?_concat]
          have hsplit : cur ++ '\n' :: '\n' :: p = (cur ++ '\n' :: '\n' :: q) ++ [d] := by
            rw [hq, List.concat_eq_append]
            simp
          refine stripL_eq_self_of_ends (c := c) (d := d) ?_ ?_ ?_ ?_
          · rw [head?_of_prefix_ne_nil (List.prefix_append _ _) hc0, hch]
          · exact head_not_space_of_stripL_eq_self hstrip hch
          · rw [hsplit, List.getLast?_concat]
          · exact getLast_not_space_of_stripL_eq_self hpp.2 hpl
        refine ih hp' (P ++ [p]) chunks _ (Or.inr ⟨by simp, by simp, hcur', ?_⟩)
        rw [joinSep_append_single_append chunks cur ('\n' :: '\n' :: p),
          joinSep_append_single P p, if_neg hP, hjoin]

/-! ### The greedy fold of `_chunk_text`: texts below the bound give one chunk -/

lemma dropWhile_head_not {α : Type} (p : α → Bool) (l : List α) {x : α} {xs : List α}
    (h : l.dropWhile p = x :: xs) : p x = false := by
  have hh := List.head?_dropWhile_not p l
  rw [h] at hh
  simpa using hh

lemma joinSep_ne_nil_of_mem {p : List Char} {S : List (List Char)}
    (hp : p ∈ S) (hne : p ≠ []) : joinSep S ≠ [] := by
  intro h
  have hlen := mem_length_le_joinSep hp
  rw [h] at hlen
  simp only [List.length_nil, Nat.le_zero] at hlen
  exact hne (List.length_eq_zero.mp hlen)

lemma stripL_newline_cons (l : List Char) : stripL ('\n' :: '\n' :: l) = stripL l := by
  show trimTrail (trimLead ('\n' :: '\n' :: l)) = trimTrail (trimLead l)
  unfold trimLead
  rw [List.dropWhile_cons_of_pos (by decide), List.dropWhile_cons_of_pos (by decide)]

lemma stripL_joinSep_empty_lead :
    ∀ E D : List (List Char), (∀ e ∈ E, e = []) → D ≠ [] →
      stripL (joinSep (E ++ D)) = stripL (joinSep D) := by
  intro E
  induction E with
  | nil => intro D _ _; rfl
  | cons e E ih =>
    intro D hE hD
    have he : e = [] := hE e (List.mem_cons_self _ _)
    subst he
    have hED : E ++ D ≠ [] := fun h => hD (List.append_eq_nil.mp h).2
    rw [List.cons_append, joinSep_cons hED, List.nil_append, stripL_newline_cons]
    exact ih D (fun q hq => hE q (List.mem_cons_of_mem _ hq)) hD

lemma chunkStep_fold_small (n : Nat) (whole : List (List Char))
    (hlen : (joinSep whole).length < n) :
    ∀ paras P : List (List Char), whole = P ++ paras →
      paras.foldl (chunkStep n) ([], joinSep (P.dropWhile (fun q => q.isEmpty))) =
        ([], joinSep (whole.dropWhile (fun q => q.isEmpty))) := by
  intro paras
  induction paras with
  | nil =>
    intro P hw
    rw [List.foldl_nil, hw, List.append_nil]
  | cons p paras ih =>
    intro P hw
    rw [List.foldl_cons]
    have hw' : whole = (P ++ [p]) ++ paras := by
      rw [hw, List.append_assoc]
      rfl
    have hstep : chunkStep n ([], joinSep (P.dropWhile (fun q => q.isEmpty))) p =
        ([], joinSep ((P ++ [p]).dropWhile (fun q => q.isEmpty))) := by
      rcases hD : P.dropWhile (fun q => q.isEmpty) with _ | ⟨q, rest⟩
      · -- nothing kept yet: the step yields `([], p)` in either branch
        have hcur : joinSep (P.dropWhile (fun q => q.isEmpty)) = [] := by rw [hD]; rfl
        have hres : (P ++ [p]).dropWhile (fun q => q.isEmpty) =
            if p.isEmpty then [] else [p] := by
          rw [List.dropWhile_append, hD]
          simp [List.dropWhile_cons]
        rw [hcur]
        have hout : joinSep ((P ++ [p]).dropWhile (fun q => q.isEmpty)) = p := by
          rw [hres]
          by_cases hpz : p.isEmpty
          · rw [if_pos hpz]
            rw [List.isEmpty_iff] at hpz
            rw [hpz]
            rfl
          · rw [if_neg hpz]
            rfl
        rw [hout]
        by_cases hcond : (0 : Nat) + p.length + 2 > n <;> simp [chunkStep, hcond]
      · have hq : q ≠ [] := by
          have := dropWhile_head_not _ _ hD
          rwa [Bool.eq_false_iff, ne_eq, List.isEmpty_iff] at this
        have hcurne : joinSep (P.dropWhile (fun q => q.isEmpty)) ≠ [] := by
          rw [hD]
          exact joinSep_ne_nil_of_mem (List.mem_cons_self _ _) hq
        have happ : (P ++ [p]).dropWhile (fun q => q.isEmpty) =
            P.dropWhile (fun q => q.isEmpty) ++ [p] := by
          rw [List.dropWhile_append, if_neg (by rw [hD]; simp)]
        have hbound : (joinSep (P.dropWhile (fun q => q.isEmpty))).length + p.length + 2 ≤ n := by
          have h1 : joinSep (P.dropWhile (fun q => q.isEmpty) ++ [p]) =
              joinSep (P.dropWhile (fun q => q.isEmpty)) ++ '\n' :: '\n' :: p := by
            rw [joinSep_append_single, if_neg (by rw [hD]; simp)]
          have h2 : (joinSep (P.dropWhile (fun q => q.isEmpty) ++ [p])).length ≤
              (joinSep (P ++ [p])).length := by
            calc (joinSep (P.dropWhile (fun q => q.isEmpty) ++ [p])).length
                ≤ (joinSep (P.takeWhile (fun q => q.isEmpty) ++
                    (P.dropWhile (fun q => q.isEmpty) ++ [p]))).length :=
                  length_joinSep_right_le _ _
              _ = (joinSep (P ++ [p])).length := by
                  rw [← List.append_assoc, List.takeWhile_append_dropWhile]
          have h3 : (joinSep (P ++ [p])).length ≤ (joinSep whole).length := by
            rw [hw']
            exact length_joinSep_left_le _ _
          rw [h1] at h2
          simp only [List.length_append, List.length_cons] at h2
          omega
        have hcond : ¬ ((joinSep (P.dropWhile (fun q => q.isEmpty))).length + p.length + 2 > n) := by
          omega
        rw [happ, joinSep_append_single, if_neg (by rw [hD]; simp)]
        simp [chunkStep, hcond, hcurne]
    rw [hstep]
    exact ih (P ++ [p]) hw'

/-! ### Catalog dictionary lemmas -/

lemma lookup_map_replace_self {k : String} {v : DocEntry} :
    ∀ docs : List (String × DocEntry),
      docs.any (fun q => decide (q.1 = k)) = true →
      lookupDoc (docs.map (fun q => if q.1 = k then (k, v) else q)) k = some v := by
  intro docs
  induction docs with
  | nil => intro h; simp at h
  | cons q rest ih =>
    obtain ⟨k₁, v₁⟩ := q
    intro h
    by_cases hq : k₁ = k
    · rw [List.map_cons, if_pos hq]
      simp [lookupDoc]
    · rw [List.map_cons, if_neg hq]
      show lookupDoc ((k₁, v₁) :: _) k = some v
      rw [lookupDoc, if_neg hq]
      refine ih ?_
      simp only [List.any_cons, Bool.or_eq_true, decide_eq_true_eq] at h
      rcases h with h | h
      · exact absurd h hq
      · exact h

lemma lookup_append_single_self {k : String} {v : DocEntry} :
    ∀ docs : List (String × DocEntry),
      docs.any (fun q => decide (q.1 = k)) = false →
      lookupDoc (docs ++ [(k, v)]) k = some v := by
  intro docs
  induction docs with
  | nil => simp [lookupDoc]
  | cons q rest ih =>
    obtain ⟨k₁, v₁⟩ := q
    intro h
    simp only [List.any_cons, Bool.or_eq_false_iff, decide_eq_false_iff_not] at h
    rw [List.cons_append, lookupDoc, if_neg h.1]
    refine ih ?_
    simp only [List.any_eq_false, decide_eq_true_eq]
    intro x hx
    have := List.any_eq_false.mp h.2 x hx
    simpa using this

lemma lookup_insertOrReplace_self (docs : List (String × DocEntry)) (k : String)
    (v : DocEntry) : lookupDoc (insertOrReplace docs k v) k = some v := by
  rw [insertOrReplace]
  by_cases h : docs.any (fun q => decide (q.1 = k)) = true
  · rw [if_pos h]
    exact lookup_map_replace_self docs h
  · rw [if_neg h]
    exact lookup_append_single_self docs (Bool.not_eq_true _ ▸ eq_false_of_ne_true h)

lemma lookup_insertOrReplace_other (docs : List (String × DocEntry)) (k k' : String)
    (v : DocEntry) (hne : k' ≠ k) :
    lookupDoc (insertOrReplace docs k v) k' = lookupDoc docs k' := by
  rw [insertOrReplace]
  by_cases h : docs.any (fun q => decide (q.1 = k)) = true
  · rw [if_pos h]
    clear h
    induction docs with
    | nil => rfl
    | cons q rest ih =>
      obtain ⟨k₁, v₁⟩ := q
      by_cases hq : k₁ = k
      · rw [List.map_cons, if_pos hq]
        show lookupDoc ((k, v) :: _) k' = lookupDoc ((k₁, v₁) :: rest) k'
        rw [lookupDoc, lookupDoc, if_neg (fun hh => hne hh.symm),
          if_neg (fun hh : k₁ = k' => hne (hh ▸ hq))]
        exact ih
      · rw [List.map_cons, if_neg hq]
        show lookupDoc ((k₁, v₁) :: _) k' = lookupDoc ((k₁, v₁) :: rest) k'
        rw [lookupDoc, lookupDoc]
        by_cases hq' : k₁ = k'
        · rw [if_pos hq', if_pos hq']
        · rw [if_neg hq', if_neg hq']
          exact ih
  · rw [if_neg h]
    clear h
    induction docs with
    | nil =>
      show lookupDoc [(k, v)] k' = lookupDoc [] k'
      rw [lookupDoc, lookupDoc, if_neg (fun hh : k = k' => hne hh.symm)]
      rfl
    | cons q rest ih =>
      obtain ⟨k₁, v₁⟩ := q
      rw [List.cons_append, lookupDoc, lookupDoc]
      by_cases hq' : k₁ = k'
      · rw [if_pos hq', if_pos hq']
      · rw [if_neg hq', if_neg hq']
        exact ih

lemma keys_map_replace {k : String} {v : DocEntry} :
    ∀ docs : List (String × DocEntry),
      (docs.map (fun q => if q.1 = k then (k, v) else q)).map Prod.fst =
        docs.map Prod.fst := by
  intro docs
  induction docs with
  | nil => rfl
  | cons q rest ih =>
    obtain ⟨k₁, v₁⟩ := q
    by_cases hq : k₁ = k
    · rw [List.map_cons, if_pos hq, List.map_cons, List.map_cons, ih]
      subst hq
      rfl
    · rw [List.map_cons, if_neg hq, List.map_cons, List.map_cons, ih]

lemma not_mem_keys_of_any_false {k : String} {docs : List (String × DocEntry)}
    (h : docs.any (fun q => decide (q.1 = k)) = false) :
    k ∉ docs.map Prod.fst := by
  intro hmem
  obtain ⟨q, hq, hfst⟩ := List.mem_map.mp hmem
  have := List.any_eq_false.mp h q hq
  simp [hfst] at this

lemma keys_insertOrReplace (docs : List (String × DocEntry)) (k : String) (v : DocEntry) :
    (insertOrReplace docs k v).map Prod.fst = docs.map Prod.fst ∨
      (insertOrReplace docs k v).map Prod.fst = docs.map Prod.fst ++ [k] := by
  rw [insertOrReplace]
  by_cases h : docs.any (fun q => decide (q.1 = k)) = true
  · rw [if_pos h]
    exact Or.inl (keys_map_replace docs)
  · rw [if_neg h]
    right
    simp

lemma nodup_keys_insertOrReplace {docs : List (String × DocEntry)} {k : String}
    {v : DocEntry} (h : (docs.map Prod.fst).Nodup) :
    ((insertOrReplace docs k v).map Prod.fst).Nodup := by
  rw [insertOrReplace]
  by_cases hany : docs.any (fun q => decide (q.1 = k)) = true
  · rw [if_pos hany, keys_map_replace]
    exact h
  · rw [if_neg hany]
    have hk : k ∉ docs.map Prod.fst :=
      not_mem_keys_of_any_false (Bool.not_eq_true _ ▸ eq_false_of_ne_true hany)
    simp only [List.map_append, List.map_cons, List.map_nil]
    exact List.Nodup.append h (List.nodup_singleton k)
      (fun a ha hb => by
        rcases List.mem_singleton.mp hb with rfl
        exact hk ha)

lemma mem_keys_insertOrReplace (docs : List (String × DocEntry)) (k : String)
    (v : DocEntry) : k ∈ (insertOrReplace docs k v).map Prod.fst := by
  rw [insertOrReplace]
  by_cases hany : docs.any (fun q => decide (q.1 = k)) = true
  · rw [if_pos hany, keys_map_replace]
    obtain ⟨q, hq, hfst⟩ : ∃ q ∈ docs, decide (q.1 = k) = true := List.any_eq_true.mp hany
    rw [decide_eq_true_eq] at hfst
    exact hfst ▸ List.mem_map_of_mem Prod.fst hq
  · rw [if_neg hany]
    simp

lemma any_key_of_mem {k : String} {docs : List (String × DocEntry)}
    (h : k ∈ docs.map Prod.fst) :
    docs.any (fun q => decide (q.1 = k)) = true := by
  obtain ⟨q, hq, hfst⟩ := List.mem_map.mp h
  exact List.any_eq_true.mpr ⟨q, hq, by simp [hfst]⟩

lemma length_insertOrReplace_of_mem {docs : List (String × DocEntry)} {k : String}
    {v : DocEntry} (h : k ∈ docs.map Prod.fst) :
    (insertOrReplace docs k v).length = docs.length := by
  rw [insertOrReplace, if_pos (any_key_of_mem h), List.length_map]

lemma filter_key_length_of_nodup :
    ∀ (docs : List (String × DocEntry)) (k : String),
      (docs.map Prod.fst).Nodup → k ∈ docs.map Prod.fst →
      (docs.filter (fun q => decide (q.1 = k))).length = 1 := by
  intro docs
  induction docs with
  | nil => intro k _ hmem; simp at hmem
  | cons q rest ih =>
    intro k hnd hmem
    simp only [List.map_cons, List.nodup_cons] at hnd
    rcases List.mem_cons.mp hmem with heq | hmem'
    · subst heq
      rw [List.filter_cons_of_pos (by simp)]
      have hfil : rest.filter (fun p => decide (p.1 = q.1)) = [] := by
        rw [List.filter_eq_nil_iff]
        intro p hp
        simp only [decide_eq_true_eq]
        intro hpq
        exact hnd.1 (hpq ▸ List.mem_map_of_mem Prod.fst hp)
      rw [hfil]
      rfl
    · have hqk : ¬(q.1 = k) := fun hh => hnd.1 (hh ▸ hmem')
      rw [List.filter_cons_of_neg (by simpa using hqk)]
      exact ih k hnd.2 hmem'

/-! ### Digest length lemmas -/

lemma bytesToHex_length : ∀ bs : List Nat, (bytesToHex bs).length = 2 * bs.length := by
  intro bs
  induction bs with
  | nil => rfl
  | cons b rest ih =>
    show (byteHex b ++ bytesToHex rest).length = 2 * (rest.length + 1)
    rw [List.length_append, ih, byteHex]
    simp only [List.length_cons, List.length_nil]
    omega

lemma md5HexChars_length (msg : List Nat) : (md5HexChars msg).length = 32 := by
  rw [md5HexChars, bytesToHex_length, stateBytes]
  simp only [List.length_append, wordLEBytes, List.length_cons, List.length_nil]

lemma generateDocId_length (s : String) : (generateDocId s).length = 16 := by
  show ((md5HexChars (utf8Bytes s)).take 16).length = 16
  rw [List.length_take, md5HexChars_length]
  rfl

/-! ### Page-block formatting lemmas -/

lemma enumFrom_map_page :
    ∀ (ts : List String) (k : Nat),
      (ts.enumFrom k).map
          (fun it => "--- Page " ++ toString (it.1 + 1) ++ " ---\n" ++ it.2) =
        specPageBlocks (k + 1) ts := by
  intro ts
  induction ts with
  | nil => intro k; rfl
  | cons t ts ih =>
    intro k
    rw [List.enumFrom_cons, List.map_cons, ih (k + 1), specPageBlocks]

lemma enumFrom_map_page_opt :
    ∀ (os : List (Option String)) (k : Nat),
      (os.enumFrom k).map
          (fun it => "--- Page " ++ toString (it.1 + 1) ++ " ---\n" ++ it.2.getD "") =
        specPageBlocks (k + 1) (os.map (fun o => o.getD "")) := by
  intro os
  induction os with
  | nil => intro k; rfl
  | cons o os ih =>
    intro k
    rw [List.enumFrom_cons, List.map_cons, ih (k + 1), List.map_cons, specPageBlocks]

end PdfExtractor

namespace Claims

open PdfExtractor

/-- C1 counterexample: the claim as stated fails, because `_chunk_text` strips
each emitted chunk (`current_chunk.strip()`), so for the input `" a"` the only
chunk is `"a"` and re-joining the chunks with the paragraph separator does not
reproduce the input text. -/
theorem chunk_rejoin_counterexample :
    String.intercalate "\n\n" (chunkTextS " a" 50000) ≠ " a" := by
  decide

/-- C1 (amended): for every chunk size and every input text all of whose
double-newline-separated paragraphs are non-empty and free of leading and
trailing whitespace, re-joining the chunks produced by `_chunk_text` with the
original paragraph separator `"\n\n"` reproduces the input text losslessly. -/
theorem chunk_rejoin_lossless (text : List Char) (n : Nat)
    (h : ∀ p ∈ splitParas text, p ≠ [] ∧ stripL p = p) :
    joinSep (chunkText text n) = text := by
  have hfold := chunkStep_fold_join n (splitParas text) h [] [] []
    (Or.inl ⟨rfl, rfl, rfl⟩)
  rw [List.nil_append] at hfold
  rw [chunkText, hfold, joinSep_splitParas]

/-- C1 witness: the amended statement at the concrete input `"ab\n\ncd"` with
chunk size `3` (which forces the two paragraphs into separate chunks). -/
theorem chunk_rejoin_lossless_witness :
    (∀ p ∈ splitParas "ab\n\ncd".data, p ≠ [] ∧ stripL p = p) ∧
      joinSep (chunkText "ab\n\ncd".data 3) = "ab\n\ncd".data :=
  ⟨by decide, chunk_rejoin_lossless "ab\n\ncd".data 3 (by decide)⟩

/-- C2: every chunk produced by `_chunk_text` either has length at most the
maximum, or is the stripped form of a single input paragraph whose own length
exceeds the maximum (emitted as its own oversized chunk, never truncated);
every chunk is trimmed of leading/trailing whitespace; and the accumulation
step closes (emits) the running chunk exactly when
`len(current_chunk) + len(para) + 2 > chunk_size`. -/
theorem chunk_size_bound (text : List Char) (n : Nat) :
    (∀ c ∈ chunkText text n,
        (c.length ≤ n ∨ ∃ p ∈ splitParas text, c = stripL p ∧ n < p.length) ∧
          stripL c = c) ∧
    (∀ (chunks : List (List Char)) (cur para : List Char), cur ≠ [] →
        ((chunkStep n (chunks, cur) para).1 = chunks ++ [stripL cur] ↔
          n < cur.length + para.length + 2)) := by
  constructor
  · intro c hc
    exact chunkStep_fold_bound n (splitParas text) (splitParas text)
      (fun p hp => hp) [] [] (fun c hc => absurd hc (List.not_mem_nil c))
      (Or.inl (Nat.zero_le n)) c hc
  · intro chunks cur para hcur
    constructor
    · intro h
      by_contra hn
      have hstep : (chunkStep n (chunks, cur) para).1 = chunks := by
        simp [chunkStep, hn]
      rw [hstep] at h
      have := congrArg List.length h
      simp at this
    · intro h
      simp [chunkStep, h, hcur]

/-- C2 witness: the closing condition at a concrete non-empty running chunk. -/
theorem chunk_size_bound_witness :
    (['a'] : List Char) ≠ [] ∧
      ((chunkStep 3 ([], ['a']) ['b', 'c']).1 = [] ++ [stripL ['a']] ↔
        3 < ([' '] ++ []).length + 2 + 2) := by
  refine ⟨by decide, ?_⟩
  have h := (chunk_size_bound [] 3).2 [] ['a'] ['b', 'c'] (by decide)
  simpa using h

/-- C3 counterexample: the claim as stated fails, because a non-empty text
consisting only of the paragraph separator, such as `"\n\n"`, is below the
maximum chunk size but yields zero chunks (every paragraph of its split is
empty, so `current_chunk` stays empty and nothing is flushed). -/
theorem chunk_single_counterexample :
    ("\n\n" : String) ≠ "" ∧ ("\n\n" : String).length < 50000 ∧
      chunkTextS "\n\n" 50000 = [] := by
  decide

/-- C3 (amended): for every text whose length is below the maximum chunk size
and whose double-newline split contains at least one non-empty paragraph
(in particular every non-whitespace text), `_chunk_text` yields exactly one
chunk, equal to the input text trimmed of leading/trailing whitespace. -/
theorem chunk_single_small (text : List Char) (n : Nat) (hlen : text.length < n)
    (hne : ∃ p ∈ splitParas text, p ≠ []) :
    chunkText text n = [stripL text] := by
  have hjl : (joinSep (splitParas text)).length < n := by
    rw [joinSep_splitParas]
    exact hlen
  have hfold := chunkStep_fold_small n (splitParas text) hjl (splitParas text) [] rfl
  rw [chunkText]
  have hinit : joinSep (([] : List (List Char)).dropWhile (fun q => q.isEmpty)) =
      ([] : List Char) := rfl
  rw [← hinit, hfold]
  obtain ⟨p, hp, hpne⟩ := hne
  have hDne : (splitParas text).dropWhile (fun q => q.isEmpty) ≠ [] := by
    intro hD
    have hall : splitParas text = (splitParas text).takeWhile (fun q => q.isEmpty) := by
      conv_lhs => rw [← List.takeWhile_append_dropWhile (fun q : List Char => q.isEmpty)
        (splitParas text)]
      rw [hD, List.append_nil]
    rw [hall] at hp
    have := List.mem_takeWhile_imp hp
    rw [List.isEmpty_iff] at this
    exact hpne this
  rcases hD : (splitParas text).dropWhile (fun q => q.isEmpty) with _ | ⟨q, rest⟩
  · exact absurd hD hDne
  have hq : q ≠ [] := by
    have := dropWhile_head_not _ _ hD
    rwa [Bool.eq_false_iff, ne_eq, List.isEmpty_iff] at this
  have hjne : joinSep ((splitParas text).dropWhile (fun q => q.isEmpty)) ≠ [] := by
    rw [hD]
    exact joinSep_ne_nil_of_mem (List.mem_cons_self _ _) hq
  rw [flushChunks, if_neg (by rw [hD] at hjne ⊢; exact hjne), List.nil_append]
  have hstrip : stripL (joinSep ((splitParas text).dropWhile (fun q => q.isEmpty))) =
      stripL text := by
    have hE : ∀ e ∈ (splitParas text).takeWhile (fun q => q.isEmpty), e = ([] : List Char) := by
      intro e he
      have := List.mem_takeWhile_imp he
      rwa [List.isEmpty_iff] at this
    have := stripL_joinSep_empty_lead ((splitParas text).takeWhile (fun q => q.isEmpty))
      ((splitParas text).dropWhile (fun q => q.isEmpty)) hE hDne
    rw [List.takeWhile_append_dropWhile, joinSep_splitParas] at this
    exact this.symm
  show [stripL (joinSep ((splitParas text).dropWhile (fun q => q.isEmpty)))] = [stripL text]
  rw [hstrip]

/-- C3 witness: the amended statement at the concrete input `"ab"` with
maximum `3`. -/
theorem chunk_single_small_witness :
    ("ab".data.length < 3 ∧ ∃ p ∈ splitParas "ab".data, p ≠ []) ∧
      chunkText "ab".data 3 = [stripL "ab".data] :=
  ⟨⟨by decide, by decide⟩, chunk_single_small "ab".data 3 (by decide) (by decide)⟩

/-- C4: the download URL is computed by ordered pattern matching for an
embedded drive file identifier: the first matching pattern's captured id
parameterizes the rewritten direct-download URL (in particular the given
`/file/d/` example), and a URL matching no pattern passes through
unchanged. -/
theorem drive_url_rewrite :
    resolveDownloadUrl "https://drive.google.com/file/d/ABC123/view" =
      "https://drive.google.com/uc?export=download&id=ABC123" ∧
    (∀ url : String, extractGoogleDriveId url = none → resolveDownloadUrl url = url) ∧
    (∀ (url : String) (i : List Char),
        searchLitId "/file/d/".data url.data = some i →
        extractGoogleDriveId url = some i) ∧
    (∀ (url : String) (i : List Char), extractGoogleDriveId url = some i →
        resolveDownloadUrl url =
          "https://drive.google.com/uc?export=download&id=" ++ String.mk i) := by
  refine ⟨by decide, ?_, ?_, ?_⟩
  · intro url h
    simp [resolveDownloadUrl, h]
  · intro url i h
    simp [extractGoogleDriveId, h]
  · intro url i h
    simp [resolveDownloadUrl, h, getGoogleDriveDownloadUrl]

/-- C4 witness: a non-matching URL passes through, the `/file/d/` pattern
wins first, and a matching URL is rewritten with the captured id. -/
theorem drive_url_rewrite_witness :
    resolveDownloadUrl "https://example.com/plain.pdf" = "https://example.com/plain.pdf" ∧
    extractGoogleDriveId "https://drive.google.com/file/d/XY/view" = some "XY".data ∧
    resolveDownloadUrl "https://site.example/get?id=Z9" =
      "https://drive.google.com/uc?export=download&id=" ++ String.mk "Z9".data :=
  ⟨drive_url_rewrite.2.1 "https://example.com/plain.pdf" (by decide),
   drive_url_rewrite.2.2.1 "https://drive.google.com/file/d/XY/view" "XY".data (by decide),
   drive_url_rewrite.2.2.2 "https://site.example/get?id=Z9" "Z9".data (by decide)⟩

/-- C5: `_update_metadata` stores, at the result's identifier key, exactly
the entry built from that result (insert if absent, full overwrite if
present, no field-level merge); updating twice with the same identifier
leaves exactly one entry at that key, holding the second run's values; and
after every update `document_count` equals the number of distinct identifier
keys of the documents mapping. -/
theorem catalog_upsert (md : Metadata) (r1 r2 : ExtractionResult)
    (now1 now2 : String) (hid : r1.doc_id = r2.doc_id)
    (hnd : (md.documents.map Prod.fst).Nodup) :
    lookupDoc (updateMetadata (updateMetadata md r1 now1) r2 now2).documents r2.doc_id =
      some (entryOfResult r2) ∧
    ((updateMetadata (updateMetadata md r1 now1) r2 now2).documents.filter
        (fun q => decide (q.1 = r2.doc_id))).length = 1 ∧
    (updateMetadata (updateMetadata md r1 now1) r2 now2).documents.length =
      (updateMetadata md r1 now1).documents.length ∧
    (∀ (md' : Metadata) (r : ExtractionResult) (now : String),
        lookupDoc (updateMetadata md' r now).documents r.doc_id =
          some (entryOfResult r)) ∧
    (∀ (md' : Metadata) (r : ExtractionResult) (now : String),
        (md'.documents.map Prod.fst).Nodup →
        (updateMetadata md' r now).document_count =
          ((updateMetadata md' r now).documents.map Prod.fst).dedup.length) := by
  refine ⟨?_, ?_, ?_, ?_, ?_⟩
  · exact lookup_insertOrReplace_self _ _ _
  · have hnd1 : (((updateMetadata md r1 now1).documents).map Prod.fst).Nodup :=
      nodup_keys_insertOrReplace hnd
    have hnd2 : (((updateMetadata (updateMetadata md r1 now1) r2 now2).documents).map
        Prod.fst).Nodup := nodup_keys_insertOrReplace hnd1
    refine filter_key_length_of_nodup _ _ hnd2 ?_
    exact mem_keys_insertOrReplace _ _ _
  · have hmem : r2.doc_id ∈ ((updateMetadata md r1 now1).documents).map Prod.fst := by
      rw [← hid]
      exact mem_keys_insertOrReplace _ _ _
    exact length_insertOrReplace_of_mem hmem
  · intro md' r now
    exact lookup_insertOrReplace_self _ _ _
  · intro md' r now hnd'
    have hdocs : (updateMetadata md' r now).documents =
        insertOrReplace md'.documents r.doc_id (entryOfResult r) := rfl
    have hcount : (updateMetadata md' r now).document_count =
        (insertOrReplace md'.documents r.doc_id (entryOfResult r)).length := rfl
    rw [hdocs, hcount, List.Nodup.dedup (nodup_keys_insertOrReplace hnd'),
      List.length_map]

/-- C5 witness: two updates with the same identifier and different titles on
the empty catalog. -/
theorem catalog_upsert_witness :
    ((sampleResult "d1" "first").doc_id = (sampleResult "d1" "second").doc_id ∧
      ((emptyMetadata.documents).map Prod.fst).Nodup) ∧
    lookupDoc (updateMetadata (updateMetadata emptyMetadata (sampleResult "d1" "first") "t1")
        (sampleResult "d1" "second") "t2").documents (sampleResult "d1" "second").doc_id =
      some (entryOfResult (sampleResult "d1" "second")) :=
  ⟨⟨rfl, List.nodup_nil⟩,
   (catalog_upsert emptyMetadata (sampleResult "d1" "first") (sampleResult "d1" "second")
      "t1" "t2" rfl List.nodup_nil).1⟩

/-- C6: for a source classified as a local path whose file does not exist,
`process_pdf` returns a structured failure result whose message contains
"File not found", with no file written and the catalog unchanged. -/
theorem missing_file_failure (e : Env) (md : Metadata) (source : String)
    (output_name title : Option String) (tags : Option (List String))
    (hurl : isUrl source = false) (hfe : e.fileExists source = false) :
    (processPdf e md source output_name title tags).1 =
      ProcResult.failure ("File not found: " ++ source) ∧
    ((processPdf e md source output_name title tags).1).successFlag = false ∧
    "File not found".data <+: ("File not found: " ++ source).data ∧
    (processPdf e md source output_name title tags).2.1 = [] ∧
    (processPdf e md source output_name title tags).2.2 = md := by
  have hmain : processPdf e md source output_name title tags =
      (ProcResult.failure ("File not found: " ++ source), [], md) := by
    rw [processPdf.eq_def]
    simp [hurl, hfe]
  refine ⟨by rw [hmain], by rw [hmain]; rfl, ?_, by rw [hmain], by rw [hmain]⟩
  refine ⟨": ".data ++ source.data, ?_⟩
  show "File not found".data ++ (": ".data ++ source.data) = _
  rw [← List.append_assoc]
  have h1 : "File not found".data ++ ": ".data = "File not found: ".data := by decide
  rw [h1]
  rfl

/-- C6 witness: a concrete missing local file. -/
theorem missing_file_failure_witness :
    (isUrl "missing.pdf" = false ∧ sampleEnvMissing.fileExists "missing.pdf" = false) ∧
    (processPdf sampleEnvMissing emptyMetadata "missing.pdf" none none none).1 =
      ProcResult.failure ("File not found: " ++ "missing.pdf") ∧
    (processPdf sampleEnvMissing emptyMetadata "missing.pdf" none none none).2.1 = [] :=
  ⟨⟨by decide, rfl⟩,
   (missing_file_failure sampleEnvMissing emptyMetadata "missing.pdf" none none none
      (by decide) rfl).1,
   (missing_file_failure sampleEnvMissing emptyMetadata "missing.pdf" none none none
      (by decide) rfl).2.2.2.1⟩

set_option maxRecDepth 20000 in
/-- C7: backend selection is a function of the three availability flags only,
in the fixed priority order pymupdf, pdfplumber, pypdf2; with none available,
`extract_text` fails with a configuration error naming all three installable
packages, and `process_pdf` converts that error into a failure result. -/
theorem backend_selection (e : Env) :
    (getBestPdfLibrary e = "pymupdf" ↔ e.hasPymupdf = true) ∧
    (getBestPdfLibrary e = "pdfplumber" ↔
      e.hasPymupdf = false ∧ e.hasPdfplumber = true) ∧
    (getBestPdfLibrary e = "pypdf2" ↔
      e.hasPymupdf = false ∧ e.hasPdfplumber = false ∧ e.hasPypdf2 = true) ∧
    (getBestPdfLibrary e = "none" ↔
      e.hasPymupdf = false ∧ e.hasPdfplumber = false ∧ e.hasPypdf2 = false) ∧
    (e.hasPymupdf = false → e.hasPdfplumber = false → e.hasPypdf2 = false →
      extractText e = Except.error noLibraryMsg ∧
      "pymupdf".data <:+: noLibraryMsg.data ∧
      "pdfplumber".data <:+: noLibraryMsg.data ∧
      "pypdf2".data <:+: noLibraryMsg.data ∧
      (∀ (md : Metadata) (source : String) (output_name title : Option String)
          (tags : Option (List String)),
          isUrl source = false → e.fileExists source = true →
          (processPdf e md source output_name title tags).1 =
            ProcResult.failure ("Text extraction failed: " ++ noLibraryMsg))) := by
  refine ⟨?_, ?_, ?_, ?_, ?_⟩
  · cases h1 : e.hasPymupdf <;> cases h2 : e.hasPdfplumber <;> cases h3 : e.hasPypdf2 <;>
      simp [getBestPdfLibrary, h1, h2, h3]
  · cases h1 : e.hasPymupdf <;> cases h2 : e.hasPdfplumber <;> cases h3 : e.hasPypdf2 <;>
      simp [getBestPdfLibrary, h1, h2, h3]
  · cases h1 : e.hasPymupdf <;> cases h2 : e.hasPdfplumber <;> cases h3 : e.hasPypdf2 <;>
      simp [getBestPdfLibrary, h1, h2, h3]
  · cases h1 : e.hasPymupdf <;> cases h2 : e.hasPdfplumber <;> cases h3 : e.hasPypdf2 <;>
      simp [getBestPdfLibrary, h1, h2, h3]
  · intro h1 h2 h3
    have hlib : getBestPdfLibrary e = "none" := by
      simp [getBestPdfLibrary, h1, h2, h3]
    have hext : extractText e = Except.error noLibraryMsg := by
      rw [extractText, hlib]
      rfl
    refine ⟨hext, by decide, by decide, by decide, ?_⟩
    intro md source output_name title tags hurl hfe
    rw [processPdf.eq_def]
    simp [hurl, hfe, hext]

/-- C7 witness: all conjuncts at an environment with no backend installed. -/
theorem backend_selection_witness :
    (sampleEnvNoLib.hasPymupdf = false ∧ sampleEnvNoLib.hasPdfplumber = false ∧
      sampleEnvNoLib.hasPypdf2 = false ∧ isUrl "local.pdf" = false ∧
      sampleEnvNoLib.fileExists "local.pdf" = true) ∧
    getBestPdfLibrary sampleEnvNoLib = "none" ∧
    extractText sampleEnvNoLib = Except.error noLibraryMsg ∧
    (processPdf sampleEnvNoLib emptyMetadata "local.pdf" none none none).1 =
      ProcResult.failure ("Text extraction failed: " ++ noLibraryMsg) :=
  ⟨⟨rfl, rfl, rfl, by decide, rfl⟩,
   (backend_selection sampleEnvNoLib).2.2.2.1.mpr ⟨rfl, rfl, rfl⟩,
   ((backend_selection sampleEnvNoLib).2.2.2.2 rfl rfl rfl).1,
   (((backend_selection sampleEnvNoLib).2.2.2.2 rfl rfl rfl).2.2.2.2 emptyMetadata
      "local.pdf" none none none (by decide) rfl)⟩

/-- C8: each backend yields the page blocks `"--- Page i ---\n"` followed by
the page's text for `i = 1..n` in document order, joined by the blank-line
separator `"\n\n"`, with an unextractable page treated as the empty string,
and reports the page count `n` regardless of how many pages were non-empty. -/
theorem page_block_format (ps : List String) (os : List (Option String)) :
    extractTextPymupdf ps =
      (String.intercalate "\n\n" (specPageBlocks 1 ps), ps.length) ∧
    extractTextPdfplumber os =
      (String.intercalate "\n\n" (specPageBlocks 1 (os.map (fun o => o.getD ""))),
        os.length) ∧
    extractTextPypdf2 os =
      (String.intercalate "\n\n" (specPageBlocks 1 (os.map (fun o => o.getD ""))),
        os.length) := by
  refine ⟨?_, ?_, ?_⟩
  · rw [extractTextPymupdf, show ps.enum = ps.enumFrom 0 from rfl, enumFrom_map_page ps 0]
  · rw [extractTextPdfplumber, show os.enum = os.enumFrom 0 from rfl,
      enumFrom_map_page_opt os 0]
  · rw [extractTextPypdf2, show os.enum = os.enumFrom 0 from rfl,
      enumFrom_map_page_opt os 0]

/-- C9: the document identifier is a pure deterministic function of the
source string alone (equal sources give equal identifiers; the id of a
successful run is `_generate_doc_id(source)` independent of output name,
title and tags), and every identifier has the fixed length 16. -/
theorem doc_id_pure :
    (∀ s t : String, s = t → generateDocId s = generateDocId t) ∧
    (∀ s : String, (generateDocId s).length = 16) ∧
    (∀ (e : Env) (md : Metadata) (source : String) (n1 n2 t1 t2 : Option String)
        (g1 g2 : Option (List String)),
        ((processPdf e md source n1 t1 g1).1).docId? =
          ((processPdf e md source n2 t2 g2).1).docId?) ∧
    (∀ (e : Env) (md : Metadata) (source : String) (n t : Option String)
        (g : Option (List String)) (r : ExtractionResult),
        (processPdf e md source n t g).1 = ProcResult.done r →
        r.doc_id = generateDocId source) := by
  refine ⟨fun s t h => h ▸ rfl, generateDocId_length, ?_, ?_⟩
  · intro e md source n1 n2 t1 t2 g1 g2
    rw [processPdf.eq_def, processPdf.eq_def]
    by_cases hu : isUrl source
    · by_cases hd : e.downloadOk
      · simp only [hu, hd, if_true]
        rcases hext : extractText e with err | te <;> simp [hext, ProcResult.docId?]
      · simp [hu, hd]
    · by_cases hf : e.fileExists source
      · simp only [hu, hf, Bool.false_eq_true, if_false, if_true]
        rcases hext : extractText e with err | te <;> simp [hext, ProcResult.docId?]
      · simp [hu, hf]
  · intro e md source n t g r h
    rw [processPdf.eq_def] at h
    by_cases hu : isUrl source
    · by_cases hd : e.downloadOk
      · simp only [hu, hd, if_true] at h
        rcases hext : extractText e with err | te <;> simp [hext] at h
        rw [← h]
      · simp [hu, hd] at h
    · by_cases hf : e.fileExists source
      · simp only [hu, hf, Bool.false_eq_true, if_false, if_true] at h
        rcases hext : extractText e with err | te <;> simp [hext] at h
        rw [← h]
      · simp [hu, hf] at h

/-- C9 witness: determinism and the fixed length at a concrete source. -/
theorem doc_id_pure_witness :
    generateDocId "https://example.com/a.pdf" = generateDocId "https://example.com/a.pdf" ∧
    (generateDocId "https://example.com/a.pdf").length = 16 :=
  ⟨doc_id_pure.1 "https://example.com/a.pdf" "https://example.com/a.pdf" rfl,
   doc_id_pure.2.1 "https://example.com/a.pdf"⟩

/-- C10: updating the catalog with a result for one identifier leaves every
other identifier's entry unchanged and preserves all additional top-level
keys of the loaded catalog; only `documents[doc_id]`, `document_count` and
`last_updated` change. -/
theorem catalog_frame (md : Metadata) (r : ExtractionResult) (now : String)
    (k : String) (hk : k ≠ r.doc_id) :
    lookupDoc (updateMetadata md r now).documents k = lookupDoc md.documents k ∧
    (updateMetadata md r now).extra = md.extra :=
  ⟨lookup_insertOrReplace_other md.documents r.doc_id k (entryOfResult r) hk, rfl⟩

/-- C10 witness: the frame property at a concrete catalog with one other
entry. -/
theorem catalog_frame_witness :
    ("other" : String) ≠ (sampleResult "d1" "first").doc_id ∧
    lookupDoc (updateMetadata
        { emptyMetadata with
            documents := [("other", entryOfResult (sampleResult "other" "kept"))],
            extra := [("note", "hi")] }
        (sampleResult "d1" "first") "t1").documents "other" =
      lookupDoc [("other", entryOfResult (sampleResult "other" "kept"))] "other" ∧
    (updateMetadata
        { emptyMetadata with
            documents := [("other", entryOfResult (sampleResult "other" "kept"))],
            extra := [("note", "hi")] }
        (sampleResult "d1" "first") "t1").extra = [("note", "hi")] := by
  refine ⟨by decide, ?_, ?_⟩
  · exact (catalog_frame
      { emptyMetadata with
          documents := [("other", entryOfResult (sampleResult "other" "kept"))],
          extra := [("note", "hi")] }
      (sampleResult "d1" "first") "t1" "other" (by decide)).1
  · exact (catalog_frame
      { emptyMetadata with
          documents := [("other", entryOfResult (sampleResult "other" "kept"))],
          extra := [("note", "hi")] }
      (sampleResult "d1" "first") "t1" "other" (by decide)).2

end Claims
